import Mathlib

/-!
Shallow embedding of the Bot Browser card utilities
(`src/unnamed/part_000`, `src/modules/services/chubApi.js`,
`src/unnamed/part_001`) and proofs about them.

Modelling conventions:
* JavaScript values that may be `undefined`/`null` are `Option _`.
* JavaScript string truthiness (`undefined`, `null` and `''` are falsy)
  is `strTruthy`; the `a || b` idiom on strings is `jsOrStr`.
* `String.prototype.toLowerCase`, `trim`, `substring(0, n)`,
  `startsWith`, `split('/')[0]` and `includes` are the structural models
  `jsToLower`, `jsTrim`, `jsTake`, `jsStartsWith`, `jsSplitFirst` and
  `strIncludes` over the underlying character lists;
  `localeCompare` is modelled as the lexicographic order on strings.
* `Array.prototype.sort` (stable per the ECMAScript spec) is
  `List.mergeSort`, which Lean proves stable.
* `Math.floor(Math.random() * n)`, a uniformly random index below `n`,
  is modelled by `rand % n` for an arbitrary seed `rand : Nat`.
* `fetch`/JSON parsing results are passed in as `Except` values;
  `try`/`catch` becomes matching on `Except`.
-/

namespace BotBrowser

/-- JavaScript string truthiness: `undefined`, `null` and `''` are falsy. -/
def strTruthy : Option String → Bool
  | some s => decide (s ≠ "")
  | none => false

/-- The JavaScript `a || b` idiom on a possibly-missing string `a`:
the value of `a` when truthy, otherwise the default `b`. -/
def jsOrStr (o : Option String) (d : String) : String :=
  match o with
  | some s => if s = "" then d else s
  | none => d

/-- Leading and trailing whitespace removed from a character list. -/
def trimChars (l : List Char) : List Char :=
  ((l.dropWhile Char.isWhitespace).reverse.dropWhile Char.isWhitespace).reverse

/-- Model of JavaScript `s.trim()`: leading and trailing whitespace
removed (computed on the character list, so that it evaluates). -/
def jsTrim (s : String) : String :=
  ⟨trimChars s.data⟩

/-- Model of JavaScript `s.toLowerCase()`. -/
def jsToLower (s : String) : String :=
  ⟨s.data.map Char.toLower⟩

/-- Model of JavaScript `s.startsWith(p)`. -/
def jsStartsWith (s p : String) : Bool :=
  p.data.isPrefixOf s.data

/-- Model of JavaScript `s.substring(0, n)`. -/
def jsTake (s : String) (n : Nat) : String :=
  ⟨s.data.take n⟩

/-- Model of JavaScript `s.split('/')[0]`: the segment before the first
slash (the whole string when it has no slash). -/
def jsSplitFirst (s : String) : String :=
  ⟨s.data.takeWhile (fun c => c != '/')⟩

/-- Substring containment on character lists (`p` occurs inside `l`). -/
def charsInfix : List Char → List Char → Bool
  | p, [] => p.isEmpty
  | p, c :: t => p.isPrefixOf (c :: t) || charsInfix p t

/-- Model of JavaScript `s.includes(pat)`. -/
def strIncludes (s pat : String) : Bool :=
  charsInfix pat.data s.data

/-- A character card record.  Fields consumed by the code under
verification; each may be absent in the raw JavaScript objects.
The display-only `_chubMeta` bag (floating-point ratings, timestamps)
and the `chunk`/`chunk_idx` compatibility fields are not modelled:
no function under verification reads them. -/
structure Card where
  id : Option String := none
  name : Option String := none
  creator : Option String := none
  tags : Option (List String) := none
  desc_search : Option String := none
  desc_preview : Option String := none
  description : Option String := none
  possibleNsfw : Bool := false
  avatar_url : Option String := none
  image_url : Option String := none
  service : Option String := none
  sourceService : Option String := none
deriving DecidableEq, Repr

/-! ## deduplicateCards (src/unnamed/part_000 lines 155-184) -/

/-- The normalized `name|creator` key used by `deduplicateCards`:
`(card.name || '').toLowerCase().trim()` joined by `'|'` with
`(card.creator || 'unknown').toLowerCase().trim()`. -/
def dedupKey (card : Card) : String :=
  jsTrim (jsToLower (card.name.getD "")) ++ "|" ++ jsTrim (jsToLower (jsOrStr card.creator "unknown"))

/-- The loop of `deduplicateCards`: `seen` is the key set of the `Map`;
a card is kept exactly when its key has not been seen yet. -/
def dedupGo (seen : List String) : List Card → List Card
  | [] => []
  | c :: rest =>
    if dedupKey c ∈ seen then dedupGo seen rest
    else c :: dedupGo (dedupKey c :: seen) rest

/-- `deduplicateCards(cards)` from src/unnamed/part_000. -/
def deduplicateCards (cards : List Card) : List Card :=
  dedupGo [] cards

/-- Specification-side predicate on an indexed card: its key does not
occur at any earlier position of `cards`. -/
def keepAt (cards : List Card) (p : Nat × Card) : Bool :=
  decide (dedupKey p.2 ∉ (cards.take p.1).map dedupKey)

/-- Specification-side definition, following the claim's words: the cards
whose key does not occur at any earlier position of the input. -/
def keptFirstOccurrences (cards : List Card) : List Card :=
  (cards.enum.filter (keepAt cards)).map Prod.snd

/-! ## sortCards (src/unnamed/part_000 lines 23-54) -/

/-- `(card.name || '')`, the sort key for the name sorts. -/
def nameKey (card : Card) : String := card.name.getD ""

/-- `(card.creator || '')`, the sort key for the creator sorts. -/
def creatorKey (card : Card) : String := card.creator.getD ""

/-- `a.localeCompare(b) <= 0`, modelled as the lexicographic order. -/
def localeLe (a b : String) : Bool := decide (a ≤ b)

/-- Result of a `sortCards` call with the mutation made explicit:
`input` is the caller's array after the call (the code sorts the copy
`const sorted = [...cards]`, never the argument), `result` the returned
array. -/
structure SortEffect where
  input : List Card
  result : List Card
deriving DecidableEq, Repr

/-- `sortCards(cards, sortBy)` from src/unnamed/part_000.  The switch
cases `recent`, `trending`, `rating`, `stars`, `downloads`, `favorites`,
`newcomer`, `activity`, `default` (API-level sorts), `relevance` and the
default case all return the copy unchanged, hence collapse to the final
else branch. -/
def sortCards (cards : List Card) (sortBy : String) : SortEffect :=
  if sortBy = "name_asc" then
    ⟨cards, cards.mergeSort (fun a b => localeLe (nameKey a) (nameKey b))⟩
  else if sortBy = "name_desc" then
    ⟨cards, cards.mergeSort (fun a b => localeLe (nameKey b) (nameKey a))⟩
  else if sortBy = "creator_asc" then
    ⟨cards, cards.mergeSort (fun a b => localeLe (creatorKey a) (creatorKey b))⟩
  else if sortBy = "creator_desc" then
    ⟨cards, cards.mergeSort (fun a b => localeLe (creatorKey b) (creatorKey a))⟩
  else
    ⟨cards, cards⟩

/-! ## filterCards (src/unnamed/part_000 lines 91-153) -/

/-- The filter state handed to `filterCards`. -/
structure Filters where
  search : Option String := none
  tags : List String := []
  creator : Option String := none
deriving Repr

/-- The slice `extension_settings[extensionName]` read by `filterCards`:
the NSFW toggle and the tag blocklist (possibly absent). -/
structure Settings where
  hideNsfw : Bool := false
  tagBlocklist : Option (List String) := none
deriving Repr

/-- The normalized blocklist: each term lowercased and trimmed, empty
terms dropped (`blocklist.map(t => t.toLowerCase().trim()).filter(t => t.length > 0)`). -/
def normalizedBlocklist (settings : Settings) : List String :=
  ((settings.tagBlocklist.getD []).map (fun t => jsTrim (jsToLower t))).filter
    (fun t => decide (0 < t.length))

/-- `(card.desc_search || card.desc_preview || card.description || '')`. -/
def descText (card : Card) : String :=
  jsOrStr card.desc_search (jsOrStr card.desc_preview (jsOrStr card.description ""))

/-- The `card.tags` blocklist check: when the card has a tags array,
whether any normalized blocklist term equals a lowercase-trimmed tag. -/
def tagBlocked (settings : Settings) (card : Card) : Bool :=
  match card.tags with
  | some ts =>
    (normalizedBlocklist settings).any (fun b => (ts.map (fun t => jsTrim (jsToLower t))).contains b)
  | none => false

/-- The blocklist part of the `filterCards` predicate: blocked tags,
blocked terms in the description, blocked terms in the name.
`normalizedBlocklist` names the `normalizedBlocklist` local of the code. -/
def blocklistPasses (settings : Settings) (card : Card) : Bool :=
  if 0 < (settings.tagBlocklist.getD []).length then
    if 0 < (normalizedBlocklist settings).length then
      if tagBlocked settings card then false
      else if (normalizedBlocklist settings).any
          (fun b => strIncludes (jsToLower (descText card)) b) then false
      else if (normalizedBlocklist settings).any
          (fun b => strIncludes (jsToLower (card.name.getD "")) b) then false
      else true
    else true
  else true

/-- The per-card predicate of `filterCards` (the callback of the
`filteredCards.filter(card => ...)` call), with its early returns. -/
def cardPasses (filters : Filters) (settings : Settings) (card : Card) : Bool :=
  if 0 < filters.tags.length &&
      (card.tags.isNone || !(filters.tags.all (fun tag => (card.tags.getD []).contains tag))) then
    false
  else if strTruthy filters.creator && decide (card.creator ≠ filters.creator) then
    false
  else if settings.hideNsfw && card.possibleNsfw then
    false
  else
    blocklistPasses settings card

/-- `filterCards(cards, filters, fuse, extensionName, extension_settings)`.
The Fuse.js index is abstracted as an optional search function returning
the matched items in relevance order. -/
def filterCards (cards : List Card) (filters : Filters)
    (fuse : Option (String → List Card)) (settings : Settings) : List Card :=
  let filteredCards :=
    match filters.search, fuse with
    | some s, some f => if s = "" then cards else f s
    | _, _ => cards
  filteredCards.filter (cardPasses filters settings)

/-- `filters.search && fuse`: whether the fuzzy text search branch runs. -/
def searchActive (filters : Filters) (fuse : Option (String → List Card)) : Bool :=
  strTruthy filters.search && fuse.isSome

/-! ## getRandomCard (src/unnamed/part_000 lines 242-292) -/

/-- The candidate filter: `card.avatar_url || card.image_url` must be a
non-blank string starting with `http://` or `https://`. -/
def hasValidImageUrl (card : Card) : Bool :=
  match (if strTruthy card.avatar_url then card.avatar_url else card.image_url) with
  | some u =>
    decide (u ≠ "") && decide (0 < (jsTrim u).length) &&
      (jsStartsWith u "http://" || jsStartsWith u "https://")
  | none => false

/-- The services polled by the `source === 'all'` branch. -/
def serviceNames : List String :=
  ["anchorhold", "catbox", "character_tavern", "chub", "nyai_me",
   "risuai_realm", "webring", "mlpchag", "desuarchive"]

/-- `{...card, sourceService: service}`. -/
def withSourceService (service : String) (card : Card) : Card :=
  { card with sourceService := some service }

/-- The `for (const service of serviceNames)` loop: each
`loadServiceIndexFunc(service)` may throw (propagating to the `catch`),
successful results are tagged, image-filtered and concatenated in order. -/
def loadAllCandidates (loadServiceIndexFunc : String → Except String (List Card)) :
    List String → Except String (List Card)
  | [] => Except.ok []
  | service :: rest =>
    match loadServiceIndexFunc service with
    | Except.error e => Except.error e
    | Except.ok serviceCards =>
      match loadAllCandidates loadServiceIndexFunc rest with
      | Except.error e => Except.error e
      | Except.ok more =>
        Except.ok (((serviceCards.map (withSourceService service)).filter hasValidImageUrl) ++ more)

/-- The candidate list `cards` computed inside `getRandomCard`'s `try`
block, per source branch. -/
def randomCandidates (source : Option String) (currentCards : List Card)
    (loadServiceIndexFunc : String → Except String (List Card)) :
    Except String (List Card) :=
  if source = some "current" && decide (0 < currentCards.length) then
    Except.ok (currentCards.filter hasValidImageUrl)
  else if source = some "all" || !strTruthy source then
    loadAllCandidates loadServiceIndexFunc serviceNames
  else
    Except.ok (currentCards.filter hasValidImageUrl)

/-- `getRandomCard(source, currentCards, loadServiceIndexFunc)`: any
exception yields `null`; an empty candidate list yields `null`; otherwise
a random candidate is returned (`rand` seeds the random index). -/
def getRandomCard (source : Option String) (currentCards : List Card)
    (loadServiceIndexFunc : String → Except String (List Card)) (rand : Nat) :
    Option Card :=
  match randomCandidates source currentCards loadServiceIndexFunc with
  | Except.error _ => none
  | Except.ok cards =>
    if cards.length = 0 then none
    else cards[rand % cards.length]?

/-! ## Chub API service (src/modules/services/chubApi.js, src/unnamed/part_001) -/

/-- The `SORT_MAP` object: our sort options mapped to Chub API sort
parameters; `none` models an absent key. -/
def SORT_MAP : String → Option String
  | "recent" => some "created_at"
  | "trending" => some "trending"
  | "rating" => some "rating"
  | "stars" => some "star_count"
  | "downloads" => some "download_count"
  | "favorites" => some "n_favorites"
  | "newcomer" => some "newcomer"
  | "activity" => some "last_activity_at"
  | "default" => some "default"
  | _ => none

/-- `SORT_MAP[sort] || SORT_MAP['default']`: every value of `SORT_MAP` is
a non-empty (hence truthy) string, so only a missing key falls back to
`SORT_MAP['default'] = 'default'`. -/
def apiSortOf (sort : String) : String :=
  match SORT_MAP sort with
  | some v => v
  | none => "default"

/-- The `URLSearchParams` built by `fetchChubCards`, as an ordered list
of key-value pairs. -/
def buildChubQuery (first : Nat) (sort : String) (search : String)
    (cursor : Option String) (nsfw : Bool) : List (String × String) :=
  [("first", toString first), ("sort", apiSortOf sort)]
    ++ (if search = "" then [] else [("search", search)])
    ++ (match cursor with
        | some c => if c = "" then [] else [("cursor", c)]
        | none => [])
    ++ (if nsfw then [] else [("venus", "false")])

/-- A raw card node of the Chub API response, with the fields
`transformChubCard` reads (`_chubMeta` inputs excluded, see `Card`).
`id` is kept as the string the template literal interpolates. -/
structure ChubNode where
  fullPath : Option String := none
  id : String := ""
  name : Option String := none
  tagline : Option String := none
  description : Option String := none
  topics : Option (List String) := none
  avatar_url : Option String := none
  max_res_url : Option String := none
  nsfw_image : Bool := false
deriving DecidableEq, Repr

/-- The NSFW keyword list of `transformChubCard`. -/
def nsfwKeywords : List String :=
  ["nsfw", "nsfl", "adult", "explicit", "mature", "erotic", "sex", "porn"]

/-- `transformChubCard(node)`: Chub API node to internal card format.
A template literal interpolates a missing `fullPath` as the string
`"undefined"`, which the `image_url` branch reproduces. -/
def transformChubCard (node : ChubNode) : Card :=
  let topics := node.topics.getD []
  let topicsLower := topics.map jsToLower
  let possibleNsfw := topicsLower.any (fun t => nsfwKeywords.any (fun kw => strIncludes t kw))
  { id := some (if strTruthy node.fullPath then
        "https://chub.ai/characters/" ++ node.fullPath.getD ""
      else "chub-" ++ node.id),
    service := some "chub",
    name := some (jsOrStr node.name "Unknown"),
    desc_preview := some (jsOrStr node.tagline
      (match node.description with
       | some d => jsTake d 150
       | none => "")),
    desc_search := some (node.description.getD ""),
    tags := some topics,
    creator := some (if strTruthy node.fullPath then
        jsSplitFirst (node.fullPath.getD "")
      else "Unknown"),
    image_url := some ("https://chub.ai/characters/" ++
      (match node.fullPath with
       | some fp => fp
       | none => "undefined")),
    avatar_url := some (jsOrStr node.avatar_url (jsOrStr node.max_res_url "")),
    possibleNsfw := possibleNsfw || node.nsfw_image,
    sourceService := some "chub" }

/-- `data.data` of the parsed response body: nodes (`none` when missing
or not an array), pagination cursor and total count, each optional. -/
structure ChubData where
  nodes : Option (List ChubNode) := none
  cursor : Option String := none
  count : Option Nat := none
deriving DecidableEq, Repr

/-- The parsed response body: `data.data` may be absent. -/
structure ChubPayload where
  data : Option ChubData := none
deriving DecidableEq, Repr

/-- The `fetch` response as `fetchChubCards` consumes it: the `ok` flag,
the status code, and the result of `response.json()` (which may itself
fail to parse). -/
structure HttpResponse where
  ok : Bool
  status : Nat := 200
  json : Except String ChubPayload
deriving Repr

/-- The success value of `fetchChubCards`. -/
structure ChubFetchResult where
  cards : List Card
  cursor : Option String
  count : Nat
deriving DecidableEq, Repr

/-- `fetchChubCards`: the network layer is passed in as `resp` (an
`Except.error` models a failed `fetch` or a thrown `response.json()`).
`data.data.cursor || null` maps an absent or empty cursor to `none`;
`data.data.count || cards.length` falls back on an absent or zero count. -/
def fetchChubCards (resp : Except String HttpResponse) : Except String ChubFetchResult :=
  match resp with
  | Except.error e => Except.error e
  | Except.ok r =>
    if !r.ok then Except.error ("Chub API error: " ++ toString r.status)
    else
      match r.json with
      | Except.error e => Except.error e
      | Except.ok payload =>
        match payload.data with
        | none => Except.error "Invalid response format from Chub API"
        | some d =>
          match d.nodes with
          | none => Except.error "Invalid response format from Chub API"
          | some nodes =>
            let cards := nodes.map transformChubCard
            Except.ok
              { cards := cards,
                cursor :=
                  match d.cursor with
                  | some c => if c = "" then none else some c
                  | none => none,
                count :=
                  match d.count with
                  | some n => if n = 0 then cards.length else n
                  | none => cards.length }

/-! ## Chub token storage (src/modules/services/chubApi.js lines 185-218) -/

/-- `localStorage`, as a partial map from keys to stored strings. -/
def Store : Type := String → Option String

/-- `localStorage.setItem(k, v)`. -/
def lsSet (st : Store) (k v : String) : Store :=
  fun q => if q = k then some v else st q

/-- `localStorage.removeItem(k)`. -/
def lsRemove (st : Store) (k : String) : Store :=
  fun q => if q = k then none else st q

/-- The storage key `CHUB_TOKEN_KEY`. -/
def CHUB_TOKEN_KEY : String := "botBrowser_chubApiToken"

/-- `saveChubToken(token)`: stores the trimmed token when
`token && token.trim()` is truthy, removes the entry otherwise. -/
def saveChubToken (st : Store) (token : Option String) : Store :=
  match token with
  | some t => if jsTrim t = "" then lsRemove st CHUB_TOKEN_KEY else lsSet st CHUB_TOKEN_KEY (jsTrim t)
  | none => lsRemove st CHUB_TOKEN_KEY

/-- `getChubToken()`. -/
def getChubToken (st : Store) : Option String :=
  st CHUB_TOKEN_KEY

/-- `hasChubToken()`: the token exists and trims to a non-empty string. -/
def hasChubToken (st : Store) : Bool :=
  match getChubToken st with
  | some t => decide (0 < (jsTrim t).length)
  | none => false

/-- `clearChubToken()`. -/
def clearChubToken (st : Store) : Store :=
  lsRemove st CHUB_TOKEN_KEY

/-! ## Theorems: deduplicateCards -/

/-- The dedup loop, related to the positional first-occurrence
specification: `seen` holds exactly the keys of the already-processed
prefix `pre`. -/
theorem dedupGo_eq_keepAt (l : List Card) : ∀ (pre : List Card) (seen : List String),
    (∀ k, k ∈ seen ↔ k ∈ pre.map dedupKey) →
    dedupGo seen l = ((l.enumFrom pre.length).filter (keepAt (pre ++ l))).map Prod.snd := by
  induction l with
  | nil =>
    intro pre seen _
    simp [dedupGo, List.enumFrom]
  | cons c rest ih =>
    intro pre seen hseen
    have htake : (pre ++ c :: rest).take pre.length = pre := List.take_left' rfl
    have hdec : decide (dedupKey c ∈ pre.map dedupKey) = decide (dedupKey c ∈ seen) :=
      decide_eq_decide.mpr (hseen _).symm
    have hhead : keepAt (pre ++ c :: rest) (pre.length, c) = !(decide (dedupKey c ∈ seen)) := by
      simp only [keepAt, htake, decide_not, hdec]
    have hlist : (pre ++ [c]) ++ rest = pre ++ c :: rest := by simp
    have hlen : (pre ++ [c]).length = pre.length + 1 := by simp
    rw [List.enumFrom_cons, List.filter_cons, hhead]
    by_cases hc : dedupKey c ∈ seen
    · have hseen' : ∀ k, k ∈ seen ↔ k ∈ (pre ++ [c]).map dedupKey := by
        intro k
        simp only [List.map_append, List.map_cons, List.map_nil, List.mem_append,
          List.mem_cons, List.not_mem_nil, or_false]
        constructor
        · intro hk
          exact Or.inl ((hseen k).mp hk)
        · rintro (hk | hk)
          · exact (hseen k).mpr hk
          · rw [hk]
            exact hc
      have hrec := ih (pre ++ [c]) seen hseen'
      rw [hlist, hlen] at hrec
      simp only [dedupGo, if_pos hc]
      rw [if_neg (by simp [hc])]
      exact hrec
    · have hseen' : ∀ k, k ∈ dedupKey c :: seen ↔ k ∈ (pre ++ [c]).map dedupKey := by
        intro k
        simp only [List.mem_cons, List.map_append, List.map_cons, List.map_nil,
          List.mem_append, List.not_mem_nil, or_false]
        constructor
        · rintro (hk | hk)
          · exact Or.inr hk
          · exact Or.inl ((hseen k).mp hk)
        · rintro (hk | hk)
          · exact Or.inr ((hseen k).mpr hk)
          · exact Or.inl hk
      have hrec := ih (pre ++ [c]) (dedupKey c :: seen) hseen'
      rw [hlist, hlen] at hrec
      simp only [dedupGo, if_neg hc]
      rw [if_pos (by simp [hc])]
      rw [List.map_cons]
      exact congrArg (List.cons c) hrec

/-- C1: `deduplicateCards` keeps the first occurrence per normalized
`name|creator` key: its output is exactly the cards whose key does not
occur at any earlier position of the input. -/
theorem deduplicateCards_keeps_first (cards : List Card) :
    deduplicateCards cards = keptFirstOccurrences cards := by
  have h := dedupGo_eq_keepAt cards [] [] (by simp)
  simpa [deduplicateCards, keptFirstOccurrences, List.enum_eq_enumFrom] using h

/-- The dedup loop returns a sublist of its input. -/
theorem dedupGo_sublist (l : List Card) : ∀ seen : List String,
    (dedupGo seen l).Sublist l := by
  induction l with
  | nil =>
    intro seen
    simp [dedupGo]
  | cons c rest ih =>
    intro seen
    simp only [dedupGo]
    by_cases hc : dedupKey c ∈ seen
    · rw [if_pos hc]
      exact (ih seen).cons c
    · rw [if_neg hc]
      exact (ih (dedupKey c :: seen)).cons₂ c

/-- The dedup loop yields pairwise-distinct keys, none of them in `seen`. -/
theorem dedupGo_pairwise (l : List Card) : ∀ seen : List String,
    (dedupGo seen l).Pairwise (fun a b => dedupKey a ≠ dedupKey b) ∧
      ∀ c ∈ dedupGo seen l, dedupKey c ∉ seen := by
  induction l with
  | nil =>
    intro seen
    simp [dedupGo]
  | cons c rest ih =>
    intro seen
    simp only [dedupGo]
    by_cases hc : dedupKey c ∈ seen
    · rw [if_pos hc]
      exact ih seen
    · rw [if_neg hc]
      obtain ⟨hpw, hnotin⟩ := ih (dedupKey c :: seen)
      constructor
      · refine List.Pairwise.cons ?_ hpw
        intro b hb hkey
        exact hnotin b hb (by rw [← hkey]; exact List.mem_cons_self _ _)
      · intro d hd
        rcases List.mem_cons.mp hd with hd | hd
        · rw [hd]
          exact hc
        · intro hds
          exact hnotin d hd (List.mem_cons_of_mem _ hds)

/-- On a list with pairwise-distinct keys, none of them in `seen`, the
dedup loop is the identity. -/
theorem dedupGo_of_distinct (l : List Card) : ∀ seen : List String,
    l.Pairwise (fun a b => dedupKey a ≠ dedupKey b) →
    (∀ c ∈ l, dedupKey c ∉ seen) →
    dedupGo seen l = l := by
  induction l with
  | nil =>
    intro seen _ _
    simp [dedupGo]
  | cons c rest ih =>
    intro seen hpw hnotin
    have hc : dedupKey c ∉ seen := hnotin c (List.mem_cons_self _ _)
    simp only [dedupGo, if_neg hc]
    refine congrArg (List.cons c) (ih (dedupKey c :: seen) (List.Pairwise.of_cons hpw) ?_)
    intro d hd
    intro hds
    rcases List.mem_cons.mp hds with hds | hds
    · exact (List.rel_of_pairwise_cons hpw hd) hds.symm
    · exact hnotin d (List.mem_cons_of_mem _ hd) hds

/-- C9: `deduplicateCards` is order-preserving (its output is a sublist
of the input), produces pairwise-distinct normalized keys, and is
idempotent. -/
theorem deduplicateCards_idempotent_subseq (cards : List Card) :
    (deduplicateCards cards).Sublist cards ∧
      (deduplicateCards cards).Pairwise (fun a b => dedupKey a ≠ dedupKey b) ∧
      deduplicateCards (deduplicateCards cards) = deduplicateCards cards := by
  refine ⟨dedupGo_sublist cards [], (dedupGo_pairwise cards []).1, ?_⟩
  exact dedupGo_of_distinct _ [] (dedupGo_pairwise cards []).1 (by simp)

/-! ## Theorems: sortCards -/

/-- C3: `sortCards` never mutates its argument — the caller's array is
unchanged for every sort token, local, API-level or unrecognized. -/
theorem sortCards_input_unchanged (cards : List Card) (sortBy : String) :
    (sortCards cards sortBy).input = cards := by
  simp only [sortCards]
  split_ifs <;> rfl

/-- C5: for every token other than the four local ones — the API-level
tokens, `relevance`, and any unrecognized token — `sortCards` returns the
input order unchanged. -/
theorem sortCards_api_returns_input (cards : List Card) (sortBy : String)
    (h : sortBy ∉ ["name_asc", "name_desc", "creator_asc", "creator_desc"]) :
    (sortCards cards sortBy).result = cards := by
  simp only [List.mem_cons, List.not_mem_nil, or_false, not_or] at h
  obtain ⟨h1, h2, h3, h4⟩ := h
  simp [sortCards, h1, h2, h3, h4]

/-- Witness for `sortCards_api_returns_input` at the API token `recent`
on a two-card list. -/
theorem sortCards_api_returns_input_witness :
    (sortCards [{ name := some "b" }, { name := some "a" }] "recent").result =
      [{ name := some "b" }, { name := some "a" }] :=
  sortCards_api_returns_input _ "recent" (by decide)

/-- `localeLe` is transitive. -/
theorem localeLe_trans {x y z : String} :
    localeLe x y = true → localeLe y z = true → localeLe x z = true := by
  simp only [localeLe, decide_eq_true_eq]
  exact le_trans

/-- `localeLe` is total. -/
theorem localeLe_total (x y : String) : (localeLe x y || localeLe y x) = true := by
  simp only [localeLe, Bool.or_eq_true, decide_eq_true_eq]
  exact le_total x y

/-- `localeLe` is reflexive. -/
theorem localeLe_refl (x : String) : localeLe x x = true := by
  simp [localeLe]

/-- A stable sort by a string key: the result is a permutation of the
input, sorted by the comparator, and each equal-key class keeps its
input order (expressed through `filter`). -/
theorem mergeSort_spec3 (l : List Card) (leB : Card → Card → Bool) (key : Card → String)
    (htrans : ∀ a b c : Card, leB a b = true → leB b c = true → leB a c = true)
    (htotal : ∀ a b : Card, (leB a b || leB b a) = true)
    (hkey : ∀ a b : Card, key a = key b → leB a b = true) :
    (l.mergeSort leB).Perm l ∧
      (l.mergeSort leB).Pairwise (fun a b => leB a b = true) ∧
      ∀ k, (l.mergeSort leB).filter (fun c => decide (key c = k)) =
        l.filter (fun c => decide (key c = k)) := by
  refine ⟨List.mergeSort_perm l leB, List.sorted_mergeSort htrans htotal l, ?_⟩
  intro k
  have hpw : (l.filter (fun c => decide (key c = k))).Pairwise (fun a b => leB a b = true) := by
    apply List.pairwise_of_forall_mem_list
    intro a ha b hb
    have ka : key a = k := by simpa using (List.mem_filter.mp ha).2
    have kb : key b = k := by simpa using (List.mem_filter.mp hb).2
    exact hkey a b (ka.trans kb.symm)
  have h1 : (l.filter (fun c => decide (key c = k))).Sublist (l.mergeSort leB) :=
    List.sublist_mergeSort htrans htotal hpw (List.filter_sublist l)
  have h2 : ((l.mergeSort leB).filter (fun c => decide (key c = k))).Perm
      (l.filter (fun c => decide (key c = k))) :=
    (List.mergeSort_perm l leB).filter _
  have h4 := h1.filter (fun c => decide (key c = k))
  rw [List.filter_filter] at h4
  simp only [Bool.and_self] at h4
  exact (h4.eq_of_length h2.length_eq.symm).symm

/-- C4: the four local sorts each permute the input, order it by the
named key in the direction of the token, and are stable: every equal-key
class appears in the output in its input order. -/
theorem sortCards_local_sorted_stable (cards : List Card) :
    ((sortCards cards "name_asc").result.Perm cards ∧
      (sortCards cards "name_asc").result.Pairwise (fun a b => nameKey a ≤ nameKey b) ∧
      ∀ k, (sortCards cards "name_asc").result.filter (fun c => decide (nameKey c = k)) =
        cards.filter (fun c => decide (nameKey c = k))) ∧
    ((sortCards cards "name_desc").result.Perm cards ∧
      (sortCards cards "name_desc").result.Pairwise (fun a b => nameKey b ≤ nameKey a) ∧
      ∀ k, (sortCards cards "name_desc").result.filter (fun c => decide (nameKey c = k)) =
        cards.filter (fun c => decide (nameKey c = k))) ∧
    ((sortCards cards "creator_asc").result.Perm cards ∧
      (sortCards cards "creator_asc").result.Pairwise (fun a b => creatorKey a ≤ creatorKey b) ∧
      ∀ k, (sortCards cards "creator_asc").result.filter (fun c => decide (creatorKey c = k)) =
        cards.filter (fun c => decide (creatorKey c = k))) ∧
    ((sortCards cards "creator_desc").result.Perm cards ∧
      (sortCards cards "creator_desc").result.Pairwise (fun a b => creatorKey b ≤ creatorKey a) ∧
      ∀ k, (sortCards cards "creator_desc").result.filter (fun c => decide (creatorKey c = k)) =
        cards.filter (fun c => decide (creatorKey c = k))) := by
  have ena : (sortCards cards "name_asc").result =
      cards.mergeSort (fun a b => localeLe (nameKey a) (nameKey b)) := rfl
  have end' : (sortCards cards "name_desc").result =
      cards.mergeSort (fun a b => localeLe (nameKey b) (nameKey a)) := rfl
  have eca : (sortCards cards "creator_asc").result =
      cards.mergeSort (fun a b => localeLe (creatorKey a) (creatorKey b)) := rfl
  have ecd : (sortCards cards "creator_desc").result =
      cards.mergeSort (fun a b => localeLe (creatorKey b) (creatorKey a)) := rfl
  have hna := mergeSort_spec3 cards (fun a b => localeLe (nameKey a) (nameKey b)) nameKey
    (fun _ _ _ => localeLe_trans) (fun a b => localeLe_total _ _)
    (fun a b h => by show localeLe _ _ = true; rw [h]; exact localeLe_refl _)
  have hnd := mergeSort_spec3 cards (fun a b => localeLe (nameKey b) (nameKey a)) nameKey
    (fun _ _ _ h1 h2 => localeLe_trans h2 h1) (fun a b => localeLe_total _ _)
    (fun a b h => by show localeLe _ _ = true; rw [h]; exact localeLe_refl _)
  have hca := mergeSort_spec3 cards (fun a b => localeLe (creatorKey a) (creatorKey b)) creatorKey
    (fun _ _ _ => localeLe_trans) (fun a b => localeLe_total _ _)
    (fun a b h => by show localeLe _ _ = true; rw [h]; exact localeLe_refl _)
  have hcd := mergeSort_spec3 cards (fun a b => localeLe (creatorKey b) (creatorKey a)) creatorKey
    (fun _ _ _ h1 h2 => localeLe_trans h2 h1) (fun a b => localeLe_total _ _)
    (fun a b h => by show localeLe _ _ = true; rw [h]; exact localeLe_refl _)
  rw [ena, end', eca, ecd]
  refine ⟨⟨hna.1, ?_, hna.2.2⟩, ⟨hnd.1, ?_, hnd.2.2⟩, ⟨hca.1, ?_, hca.2.2⟩,
    ⟨hcd.1, ?_, hcd.2.2⟩⟩
  · exact hna.2.1.imp (fun h => by simpa [localeLe] using h)
  · exact hnd.2.1.imp (fun h => by simpa [localeLe] using h)
  · exact hca.2.1.imp (fun h => by simpa [localeLe] using h)
  · exact hcd.2.1.imp (fun h => by simpa [localeLe] using h)

/-! ## Theorems: filterCards -/

/-- The blocklist guard chain passes exactly when no normalized blocklist
term hits the card's tags, description or name. -/
theorem blocklistPasses_true_iff (settings : Settings) (c : Card) :
    blocklistPasses settings c = true ↔
      ∀ b ∈ normalizedBlocklist settings,
        b ∉ (c.tags.getD []).map (fun t => jsTrim (jsToLower t)) ∧
        strIncludes (jsToLower (descText c)) b = false ∧
        strIncludes (jsToLower (c.name.getD "")) b = false := by
  unfold blocklistPasses
  split_ifs with h1 h2 htag hdesc hname
  · simp only [false_iff]
    intro hall
    cases hct : c.tags with
    | none => simp [tagBlocked, hct] at htag
    | some ts =>
      simp only [tagBlocked, hct, List.any_eq_true] at htag
      obtain ⟨b, hbmem, hbin⟩ := htag
      have hnot := (hall b hbmem).1
      rw [hct] at hnot
      simp only [Option.getD_some] at hnot
      exact hnot (by simpa using hbin)
  · simp only [false_iff]
    intro hall
    rw [List.any_eq_true] at hdesc
    obtain ⟨b, hbmem, hbinc⟩ := hdesc
    exact absurd hbinc (by simp [(hall b hbmem).2.1])
  · simp only [false_iff]
    intro hall
    rw [List.any_eq_true] at hname
    obtain ⟨b, hbmem, hbinc⟩ := hname
    exact absurd hbinc (by simp [(hall b hbmem).2.2])
  · simp only [true_iff]
    intro b hb
    refine ⟨?_, ?_, ?_⟩
    · cases hct : c.tags with
      | none => simp
      | some ts =>
        simp only [Option.getD_some]
        intro hbin
        apply htag
        rw [tagBlocked, hct, List.any_eq_true]
        exact ⟨b, hb, by simpa using hbin⟩
    · by_contra hcontra
      apply hdesc
      rw [List.any_eq_true]
      exact ⟨b, hb, by simpa using hcontra⟩
    · by_contra hcontra
      apply hname
      rw [List.any_eq_true]
      exact ⟨b, hb, by simpa using hcontra⟩
  · have hnil : normalizedBlocklist settings = [] :=
      List.eq_nil_of_length_eq_zero (by omega)
    simp [hnil]
  · have hnil : settings.tagBlocklist.getD [] = [] :=
      List.eq_nil_of_length_eq_zero (by omega)
    simp [normalizedBlocklist, hnil]

/-- The `filterCards` per-card predicate, decomposed into its three
early-return guards and the blocklist check. -/
theorem cardPasses_eq_guards (filters : Filters) (settings : Settings) (c : Card) :
    cardPasses filters settings c = true ↔
      ((0 < filters.tags.length &&
          (c.tags.isNone || !(filters.tags.all (fun tag => (c.tags.getD []).contains tag)))) = false ∧
        (strTruthy filters.creator && decide (c.creator ≠ filters.creator)) = false ∧
        (settings.hideNsfw && c.possibleNsfw) = false ∧
        blocklistPasses settings c = true) := by
  unfold cardPasses
  cases hg1 : (0 < filters.tags.length &&
      (c.tags.isNone || !(filters.tags.all (fun tag => (c.tags.getD []).contains tag)))) with
  | true => simp only [hg1]; simp
  | false =>
    cases hg2 : (strTruthy filters.creator && decide (c.creator ≠ filters.creator)) with
    | true => simp only [hg1, hg2]; simp
    | false =>
      cases hg3 : (settings.hideNsfw && c.possibleNsfw) with
      | true => simp only [hg1, hg2, hg3]; simp
      | false => simp only [hg1, hg2, hg3]; simp

/-- The `filterCards` per-card predicate passes exactly when the card
matches every active filter. -/
theorem cardPasses_true_iff (filters : Filters) (settings : Settings) (c : Card) :
    cardPasses filters settings c = true ↔
      (filters.tags ≠ [] → ∃ ts, c.tags = some ts ∧ ∀ t ∈ filters.tags, t ∈ ts) ∧
      (∀ fc, filters.creator = some fc → fc ≠ "" → c.creator = some fc) ∧
      ¬(settings.hideNsfw = true ∧ c.possibleNsfw = true) ∧
      (∀ b ∈ normalizedBlocklist settings,
        b ∉ (c.tags.getD []).map (fun t => jsTrim (jsToLower t)) ∧
        strIncludes (jsToLower (descText c)) b = false ∧
        strIncludes (jsToLower (c.name.getD "")) b = false) := by
  have hA : (0 < filters.tags.length &&
      (c.tags.isNone || !(filters.tags.all (fun tag => (c.tags.getD []).contains tag)))) = false ↔
      (filters.tags ≠ [] → ∃ ts, c.tags = some ts ∧ ∀ t ∈ filters.tags, t ∈ ts) := by
    by_cases htags : filters.tags = []
    · simp [htags]
    · have hlen : 0 < filters.tags.length := List.length_pos.mpr htags
      cases hct : c.tags with
      | none => simp [hlen, htags, hct]
      | some ts => simp [hlen, htags, hct, List.all_eq_true]
  have hB : (strTruthy filters.creator && decide (c.creator ≠ filters.creator)) = false ↔
      (∀ fc, filters.creator = some fc → fc ≠ "" → c.creator = some fc) := by
    cases hfc : filters.creator with
    | none => simp [strTruthy]
    | some fc =>
      by_cases hfe : fc = ""
      · simp [strTruthy, hfe]
      · simp only [strTruthy, hfe, decide_not]
        constructor
        · intro h fc' he hne
          rw [Option.some_inj] at he
          subst he
          simpa using h
        · intro h
          have := h fc rfl hfe
          simp [this]
  have hC : (settings.hideNsfw && c.possibleNsfw) = false ↔
      ¬(settings.hideNsfw = true ∧ c.possibleNsfw = true) := by
    cases settings.hideNsfw <;> cases c.possibleNsfw <;> simp
  rw [cardPasses_eq_guards filters settings c]
  exact and_congr hA (and_congr hB (and_congr hC (blocklistPasses_true_iff settings c)))

/-- When the text-search branch is inactive, `filterCards` filters the
input list itself. -/
theorem filterCards_of_no_search (cards : List Card) (filters : Filters)
    (fuse : Option (String → List Card)) (settings : Settings)
    (hns : searchActive filters fuse = false) :
    filterCards cards filters fuse settings = cards.filter (cardPasses filters settings) := by
  unfold filterCards
  cases hs : filters.search with
  | none => rfl
  | some s =>
    cases fuse with
    | none => rfl
    | some f =>
      have he : s = "" := by
        by_contra hne
        simp [searchActive, strTruthy, hs, hne] at hns
      simp [he]

/-- C2: with no text search active, a card is in the output of
`filterCards` exactly when it is in the input and matches the active tag
filters, the creator filter, the NSFW policy and the blocklist
exclusions on tags, description and name. -/
theorem filterCards_mem_iff (cards : List Card) (filters : Filters)
    (fuse : Option (String → List Card)) (settings : Settings)
    (hns : searchActive filters fuse = false) (c : Card) :
    c ∈ filterCards cards filters fuse settings ↔
      c ∈ cards ∧
      (filters.tags ≠ [] → ∃ ts, c.tags = some ts ∧ ∀ t ∈ filters.tags, t ∈ ts) ∧
      (∀ fc, filters.creator = some fc → fc ≠ "" → c.creator = some fc) ∧
      ¬(settings.hideNsfw = true ∧ c.possibleNsfw = true) ∧
      (∀ b ∈ normalizedBlocklist settings,
        b ∉ (c.tags.getD []).map (fun t => jsTrim (jsToLower t)) ∧
        strIncludes (jsToLower (descText c)) b = false ∧
        strIncludes (jsToLower (c.name.getD "")) b = false) := by
  rw [filterCards_of_no_search cards filters fuse settings hns, List.mem_filter]
  exact and_congr Iff.rfl (cardPasses_true_iff filters settings c)

/-! ## Theorems: getRandomCard -/

/-- Every card the all-sources loop collects passed the image filter. -/
theorem loadAllCandidates_valid (loader : String → Except String (List Card)) :
    ∀ (names : List String) (cs : List Card),
      loadAllCandidates loader names = Except.ok cs →
      ∀ c ∈ cs, hasValidImageUrl c = true := by
  intro names
  induction names with
  | nil =>
    intro cs h c hc
    rw [loadAllCandidates] at h
    cases h
    simp at hc
  | cons s rest ih =>
    intro cs h c hc
    rw [loadAllCandidates] at h
    cases hload : loader s with
    | error e => rw [hload] at h; cases h
    | ok serviceCards =>
      rw [hload] at h
      cases hrest : loadAllCandidates loader rest with
      | error e => rw [hrest] at h; cases h
      | ok more =>
        rw [hrest] at h
        cases h
        rcases List.mem_append.mp hc with hc | hc
        · exact List.of_mem_filter hc
        · exact ih more hrest c hc

/-- Every candidate `getRandomCard` can draw from passed the image
filter, in every source branch. -/
theorem randomCandidates_valid (source : Option String) (currentCards : List Card)
    (loader : String → Except String (List Card)) (cs : List Card)
    (h : randomCandidates source currentCards loader = Except.ok cs) :
    ∀ c ∈ cs, hasValidImageUrl c = true := by
  unfold randomCandidates at h
  split_ifs at h with h1 h2
  · cases h
    exact fun c hc => List.of_mem_filter hc
  · exact loadAllCandidates_valid loader serviceNames cs h
  · cases h
    exact fun c hc => List.of_mem_filter hc

/-- C6: `getRandomCard` returns `null` when an exception occurs or the
candidate set is empty, and otherwise returns one of the candidates that
passed the image-URL filter. -/
theorem getRandomCard_null_or_candidate (source : Option String) (currentCards : List Card)
    (loader : String → Except String (List Card)) (rand : Nat) :
    (∀ e, randomCandidates source currentCards loader = Except.error e →
      getRandomCard source currentCards loader rand = none) ∧
    (randomCandidates source currentCards loader = Except.ok [] →
      getRandomCard source currentCards loader rand = none) ∧
    (∀ cs, randomCandidates source currentCards loader = Except.ok cs → cs ≠ [] →
      ∃ c, getRandomCard source currentCards loader rand = some c ∧ c ∈ cs ∧
        hasValidImageUrl c = true) := by
  refine ⟨?_, ?_, ?_⟩
  · intro e he
    unfold getRandomCard
    rw [he]
  · intro he
    unfold getRandomCard
    rw [he]
    simp
  · intro cs hcs hne
    have hlen : cs.length ≠ 0 := fun h => hne (List.eq_nil_of_length_eq_zero h)
    have hlt : rand % cs.length < cs.length := Nat.mod_lt _ (Nat.pos_of_ne_zero hlen)
    refine ⟨cs[rand % cs.length], ?_, List.getElem_mem hlt,
      randomCandidates_valid source currentCards loader cs hcs _ (List.getElem_mem hlt)⟩
    unfold getRandomCard
    rw [hcs]
    simp only [if_neg hlen]
    exact List.getElem?_eq_getElem hlt

/-- Witness for `getRandomCard_null_or_candidate`: with source
`current`, one valid-image card and a throwing loader, a card is drawn. -/
theorem getRandomCard_null_or_candidate_witness :
    ∃ c, getRandomCard (some "current")
        [{ name := some "g", avatar_url := some "https://x/y.png" }]
        (fun _ => Except.error "boom") 0 = some c ∧
      c ∈ [({ name := some "g", avatar_url := some "https://x/y.png" } : Card)] ∧
      hasValidImageUrl c = true :=
  (getRandomCard_null_or_candidate (some "current")
      [{ name := some "g", avatar_url := some "https://x/y.png" }]
      (fun _ => Except.error "boom") 0).2.2
    [{ name := some "g", avatar_url := some "https://x/y.png" }] rfl (by decide)

/-- Witness for `filterCards_mem_iff`: a card matching the tag filter,
the creator filter, the NSFW policy and missing every blocklist term is
kept. -/
theorem filterCards_mem_iff_witness :
    ({ name := some "hero", tags := some ["a", "b"], creator := some "bob" } : Card) ∈
      filterCards [{ name := some "hero", tags := some ["a", "b"], creator := some "bob" }]
        { search := none, tags := ["a"], creator := some "bob" } none
        { hideNsfw := true, tagBlocklist := some [" X ", ""] } :=
  (filterCards_mem_iff [{ name := some "hero", tags := some ["a", "b"], creator := some "bob" }]
      { search := none, tags := ["a"], creator := some "bob" } none
      { hideNsfw := true, tagBlocklist := some [" X ", ""] } rfl
      { name := some "hero", tags := some ["a", "b"], creator := some "bob" }).mpr
    ⟨by decide, fun _ => ⟨["a", "b"], rfl, by decide⟩, fun fc h _ => h, by decide, by decide⟩

/-! ## Theorems: fetchChubCards -/

/-- C7 counterexample: a response supplying the empty-string cursor maps
to a `null` result cursor — the code does not return the response cursor
there. -/
theorem fetchChubCards_cursor_counterexample :
    fetchChubCards (Except.ok
      { ok := true, status := 200,
        json := Except.ok { data := some { nodes := some [], cursor := some "", count := none } } }) =
      Except.ok { cards := [], cursor := none, count := 0 } ∧
    (none : Option String) ≠ some "" := by
  constructor
  · rfl
  · simp

/-- C7 (amended): `fetchChubCards` raises an error exactly when the
fetch or parse failed, the response is not ok, or the body lacks
`data.data` with a `nodes` array; on success it returns the transformed
cards, the response cursor (`null` when absent or empty), and a count
defaulting to the number of cards when the response supplies none. -/
theorem fetchChubCards_error_iff (resp : Except String HttpResponse) :
    ((∃ e, fetchChubCards resp = Except.error e) ↔
      (∃ e, resp = Except.error e) ∨
      (∃ r, resp = Except.ok r ∧
        (r.ok = false ∨ (∃ e, r.json = Except.error e) ∨
          (∃ p, r.json = Except.ok p ∧
            (p.data = none ∨ ∃ d, p.data = some d ∧ d.nodes = none))))) ∧
    (∀ r p d nodes, resp = Except.ok r → r.ok = true → r.json = Except.ok p →
      p.data = some d → d.nodes = some nodes →
      ∃ res, fetchChubCards resp = Except.ok res ∧
        res.cards = nodes.map transformChubCard ∧
        (∀ cur, d.cursor = some cur → cur ≠ "" → res.cursor = some cur) ∧
        ((d.cursor = none ∨ d.cursor = some "") → res.cursor = none) ∧
        (d.count = none → res.count = res.cards.length)) := by
  constructor
  · cases resp with
    | error e => simp [fetchChubCards]
    | ok r =>
      cases hok : r.ok with
      | false => simp [fetchChubCards, hok]
      | true =>
        cases hjson : r.json with
        | error e => simp [fetchChubCards, hok, hjson]
        | ok p =>
          cases hdata : p.data with
          | none => simp [fetchChubCards, hok, hjson, hdata]
          | some d =>
            cases hnodes : d.nodes with
            | none => simp [fetchChubCards, hok, hjson, hdata, hnodes]
            | some nodes => simp [fetchChubCards, hok, hjson, hdata, hnodes]
  · intro r p d nodes hresp hok hjson hdata hnodes
    subst hresp
    refine ⟨
      { cards := nodes.map transformChubCard,
        cursor := match d.cursor with
          | some c => if c = "" then none else some c
          | none => none,
        count := match d.count with
          | some n => if n = 0 then (nodes.map transformChubCard).length else n
          | none => (nodes.map transformChubCard).length },
      ?_, rfl, ?_, ?_, ?_⟩
    · simp [fetchChubCards, hok, hjson, hdata, hnodes]
    · intro cur hcur hne
      rw [hcur]
      simp [hne]
    · rintro (hcur | hcur) <;> rw [hcur]
      rfl
    · intro hcount
      rw [hcount]

/-- Witness for `fetchChubCards_error_iff` on a successful concrete
response carrying a non-empty cursor and no count. -/
theorem fetchChubCards_error_iff_witness :
    ∃ res, fetchChubCards (Except.ok
      { ok := true, status := 200,
        json := Except.ok { data := some { nodes := some [], cursor := some "ab", count := none } } }) =
        Except.ok res ∧
      res.cards = List.map transformChubCard [] ∧
      (∀ cur, (some "ab" : Option String) = some cur → cur ≠ "" → res.cursor = some cur) ∧
      (((some "ab" : Option String) = none ∨ (some "ab" : Option String) = some "") →
        res.cursor = none) ∧
      ((none : Option Nat) = none → res.count = res.cards.length) :=
  (fetchChubCards_error_iff (Except.ok
      { ok := true, status := 200,
        json := Except.ok { data := some { nodes := some [], cursor := some "ab", count := none } } })).2
    { ok := true, status := 200,
      json := Except.ok { data := some { nodes := some [], cursor := some "ab", count := none } } }
    { data := some { nodes := some [], cursor := some "ab", count := none } }
    { nodes := some [], cursor := some "ab", count := none }
    [] rfl rfl rfl rfl rfl

/-! ## Theorems: Chub sort parameter -/

/-- C8 counterexample: the token `recent` is not passed through — the
request's `sort` parameter becomes `created_at`. -/
theorem chubSort_recent_not_passthrough :
    (buildChubQuery 200 "recent" "" none true).lookup "sort" = some "created_at" ∧
      ("created_at" : String) ≠ "recent" := by
  constructor
  · rfl
  · decide

/-- C8 (amended): for every API-level token, the `sort` query parameter
receives its `SORT_MAP` image: `trending`, `rating`, `newcomer` and
`default` map to themselves, while `recent`, `stars`, `downloads`,
`favorites` and `activity` are renamed. -/
theorem chubSort_query_mapped (first : Nat) (search : String)
    (cursor : Option String) (nsfw : Bool) :
    (buildChubQuery first "recent" search cursor nsfw).lookup "sort" = some "created_at" ∧
    (buildChubQuery first "trending" search cursor nsfw).lookup "sort" = some "trending" ∧
    (buildChubQuery first "rating" search cursor nsfw).lookup "sort" = some "rating" ∧
    (buildChubQuery first "stars" search cursor nsfw).lookup "sort" = some "star_count" ∧
    (buildChubQuery first "downloads" search cursor nsfw).lookup "sort" = some "download_count" ∧
    (buildChubQuery first "favorites" search cursor nsfw).lookup "sort" = some "n_favorites" ∧
    (buildChubQuery first "newcomer" search cursor nsfw).lookup "sort" = some "newcomer" ∧
    (buildChubQuery first "activity" search cursor nsfw).lookup "sort" = some "last_activity_at" ∧
    (buildChubQuery first "default" search cursor nsfw).lookup "sort" = some "default" :=
  ⟨rfl, rfl, rfl, rfl, rfl, rfl, rfl, rfl, rfl⟩

/-! ## Theorems: Chub token storage -/

/-- After `dropWhile`, the list is empty or starts with a failing
element. -/
theorem dropWhile_head_not (p : Char → Bool) (l : List Char) :
    l.dropWhile p = [] ∨ ∃ c u, l.dropWhile p = c :: u ∧ p c = false := by
  induction l with
  | nil => exact Or.inl rfl
  | cons c t ih =>
    by_cases hc : p c = true
    · rw [List.dropWhile_cons_of_pos hc]
      exact ih
    · rw [List.dropWhile_cons_of_neg (by simpa using hc)]
      exact Or.inr ⟨c, t, rfl, by simpa using hc⟩

/-- `dropWhile` is idempotent. -/
theorem dropWhile_idem (p : Char → Bool) (l : List Char) :
    (l.dropWhile p).dropWhile p = l.dropWhile p := by
  rcases dropWhile_head_not p l with h | ⟨c, u, h, hc⟩ <;> rw [h]
  · rfl
  · rw [List.dropWhile_cons_of_neg (by simp [hc])]

/-- A prefix of a `dropWhile`-stable list is itself stable. -/
theorem dropWhile_eq_self_of_head_stable {p : Char → Bool} {u t : List Char}
    (hpre : u.IsPrefix t) (ht : t.dropWhile p = t) : u.dropWhile p = u := by
  cases u with
  | nil => rfl
  | cons c v =>
    obtain ⟨r, hr⟩ := hpre
    cases t with
    | nil => simp at hr
    | cons d t' =>
      rw [List.cons_append] at hr
      have hcd : c = d := (List.cons.injEq c (v ++ r) d t').mp hr |>.1
      have hd : p d = false := by
        by_contra hcontra
        have hpd : p d = true := by simpa using hcontra
        rw [List.dropWhile_cons_of_pos hpd] at ht
        have hle := (List.dropWhile_suffix (l := t') (p := p)).length_le
        have hlen := congrArg List.length ht
        simp at hlen
        omega
      rw [List.dropWhile_cons_of_neg (by simp [hcd, hd])]

/-- Trimming a character list is idempotent. -/
theorem trimChars_idem (l : List Char) : trimChars (trimChars l) = trimChars l := by
  unfold trimChars
  have hstable : (l.dropWhile Char.isWhitespace).dropWhile Char.isWhitespace
      = l.dropWhile Char.isWhitespace := dropWhile_idem _ _
  have hsuf : (l.dropWhile Char.isWhitespace).reverse.dropWhile Char.isWhitespace
      <:+ (l.dropWhile Char.isWhitespace).reverse := List.dropWhile_suffix _
  have hpre : ((l.dropWhile Char.isWhitespace).reverse.dropWhile Char.isWhitespace).reverse
      <+: l.dropWhile Char.isWhitespace := by
    have h := List.reverse_prefix.mpr hsuf
    rwa [List.reverse_reverse] at h
  rw [dropWhile_eq_self_of_head_stable hpre hstable, List.reverse_reverse, dropWhile_idem]

/-- `jsTrim` is idempotent, like JavaScript `trim`. -/
theorem jsTrim_idem (s : String) : jsTrim (jsTrim s) = jsTrim s :=
  congrArg String.mk (trimChars_idem s.data)

/-- A non-empty string has positive length. -/
theorem string_pos_length_of_ne_empty {s : String} (h : s ≠ "") : 0 < s.length := by
  cases s with
  | mk data =>
    cases data with
    | nil => exact absurd rfl h
    | cons c cs => simp [String.length]

/-- C10: the Chub token storage round trip — a token with non-empty trim
is stored trimmed and reported present; a null, empty or whitespace-only
token removes the entry; `clearChubToken` removes it. -/
theorem chubToken_roundtrip (st : Store) (token : String) :
    (jsTrim token ≠ "" →
      getChubToken (saveChubToken st (some token)) = some (jsTrim token) ∧
      hasChubToken (saveChubToken st (some token)) = true) ∧
    (jsTrim token = "" →
      getChubToken (saveChubToken st (some token)) = none ∧
      hasChubToken (saveChubToken st (some token)) = false) ∧
    (getChubToken (saveChubToken st none) = none ∧
      hasChubToken (saveChubToken st none) = false) ∧
    getChubToken (clearChubToken st) = none := by
  refine ⟨?_, ?_, ⟨?_, ?_⟩, ?_⟩
  · intro h
    have hsave : saveChubToken st (some token) = lsSet st CHUB_TOKEN_KEY (jsTrim token) := by
      simp [saveChubToken, h]
    rw [hsave]
    have hget : getChubToken (lsSet st CHUB_TOKEN_KEY (jsTrim token)) = some (jsTrim token) := by
      simp [getChubToken, lsSet]
    refine ⟨hget, ?_⟩
    unfold hasChubToken
    rw [hget]
    show decide (0 < (jsTrim (jsTrim token)).length) = true
    rw [jsTrim_idem]
    simpa using string_pos_length_of_ne_empty h
  · intro h
    have hsave : saveChubToken st (some token) = lsRemove st CHUB_TOKEN_KEY := by
      simp [saveChubToken, h]
    rw [hsave]
    exact ⟨by simp [getChubToken, lsRemove], by simp [hasChubToken, getChubToken, lsRemove]⟩
  · simp [saveChubToken, getChubToken, lsRemove]
  · simp [saveChubToken, hasChubToken, getChubToken, lsRemove]
  · simp [clearChubToken, getChubToken, lsRemove]

/-- Witness for `chubToken_roundtrip` on an empty store: saving
`"  tok  "` stores `"tok"`; saving blanks stores nothing. -/
theorem chubToken_roundtrip_witness :
    getChubToken (saveChubToken (fun _ => none) (some "  tok  ")) = some "tok" ∧
    hasChubToken (saveChubToken (fun _ => none) (some "  tok  ")) = true ∧
    getChubToken (saveChubToken (fun _ => none) (some "   ")) = none := by
  have h := chubToken_roundtrip (fun _ => none) "  tok  "
  have h2 := chubToken_roundtrip (fun _ => none) "   "
  refine ⟨?_, (h.1 (by decide)).2, (h2.2.1 (by decide)).1⟩
  have := (h.1 (by decide)).1
  exact this

end BotBrowser
